import Mathlib

/-!
Verification of the CRC-32 calculator in `src/main.py`.

The computational core of the repository is the class `CRC32Calculator`:
a direct (bit-by-bit) CRC-32 computation, a table-driven computation over a
precomputed 256-entry lookup table, FCS derivation (one's complement of the
CRC) and frame validation.  We embed the core shallowly over `Nat`, with the
32-bit masking written exactly as in the source (`&&& 0xFFFFFFFF`), and the
Python list indexing `self.crc_table[table_index]` modelled as the fallible
`List` lookup `table[i]?` (so that an out-of-range index is observable as
`none`, exactly where Python would raise `IndexError`).
-/

set_option maxRecDepth 100000

namespace CRC32

/-- `CRC32Calculator.POLYNOMIAL`: the Ethernet generator polynomial. -/
def POLYNOMIAL : Nat := 0x04C11DB7

/-- `CRC32Calculator.INITIAL_VALUE`: register state before processing. -/
def INITIAL_VALUE : Nat := 0xFFFFFFFF

/-- `CRC32Calculator.FINAL_XOR`: value XOR-ed into the register at the end. -/
def FINAL_XOR : Nat := 0xFFFFFFFF

/-- One polynomial-division step: the body of the inner `for _ in range(8)`
loop shared by `_generate_crc_table` and `_calculate_crc_direct`:
`if crc & 0x80000000: crc = (crc << 1) ^ POLYNOMIAL else: crc = crc << 1`
followed by `crc &= 0xFFFFFFFF`. -/
def crcStep (crc : Nat) : Nat :=
  (if crc &&& 0x80000000 ≠ 0 then (crc <<< 1) ^^^ POLYNOMIAL else crc <<< 1) &&& 0xFFFFFFFF

/-- `n` iterations of `crcStep` (the `for _ in range(8)` loops run it 8 times). -/
def crcRounds : Nat → Nat → Nat
  | 0, crc => crc
  | n + 1, crc => crcRounds n (crcStep crc)

/-- `CRC32Calculator._generate_crc_table`: entry `i` starts the register at
`i << 24` and runs 8 polynomial-division steps. -/
def generate_crc_table : List Nat :=
  (List.range 256).map (fun i => crcRounds 8 (i <<< 24))

/-- The `for byte in data` loop of `_calculate_crc_direct`: XOR `byte << 24`
into the register, then run 8 division steps. -/
def crcDirectLoop : Nat → List Nat → Nat
  | crc, [] => crc
  | crc, byte :: rest => crcDirectLoop (crcRounds 8 (crc ^^^ (byte <<< 24))) rest

/-- `CRC32Calculator._calculate_crc_direct`. -/
def calculate_crc_direct (data : List Nat) : Nat :=
  crcDirectLoop INITIAL_VALUE data ^^^ FINAL_XOR

/-- The `for byte in data` loop of `_calculate_crc_table`:
`table_index = (crc >> 24) ^ byte; crc = ((crc << 8) ^ table[table_index]) & 0xFFFFFFFF`.
The list indexing is fallible, as in Python. -/
def crcTableLoop (table : List Nat) : Nat → List Nat → Option Nat
  | crc, [] => some crc
  | crc, byte :: rest =>
    match table[(crc >>> 24) ^^^ byte]? with
    | some entry => crcTableLoop table (((crc <<< 8) ^^^ entry) &&& 0xFFFFFFFF) rest
    | none => none

/-- `CRC32Calculator._calculate_crc_table`, parameterised by `self.crc_table`. -/
def calculate_crc_table (table : List Nat) (data : List Nat) : Option Nat :=
  (crcTableLoop table INITIAL_VALUE data).map (fun crc => crc ^^^ FINAL_XOR)

/-- The state of a `CRC32Calculator` instance: its only field is `crc_table`. -/
structure CRC32Calculator where
  crc_table : List Nat

/-- `CRC32Calculator.__init__`: builds the lookup table once. -/
def CRC32Calculator.init : CRC32Calculator :=
  { crc_table := generate_crc_table }

/-- `CRC32Calculator.calculate_crc(data, use_table)`. -/
def CRC32Calculator.calculate_crc (self : CRC32Calculator) (data : List Nat)
    (use_table : Bool) : Option Nat :=
  if use_table then calculate_crc_table self.crc_table data
  else some (calculate_crc_direct data)

/-- `CRC32Calculator.calculate_fcs(data)`: CRC via the default (table) path,
FCS is its one's complement. -/
def CRC32Calculator.calculate_fcs (self : CRC32Calculator) (data : List Nat) :
    Option (Nat × Nat) :=
  (self.calculate_crc data true).map (fun crc => (crc, crc ^^^ 0xFFFFFFFF))

/-- `CRC32Calculator.validate_frame(data, received_fcs)`: recomputes CRC/FCS
and compares the FCS with the received one. -/
def CRC32Calculator.validate_frame (self : CRC32Calculator) (data : List Nat)
    (received_fcs : Nat) : Option (Bool × Nat × Nat) :=
  (self.calculate_fcs data).map (fun p => (p.2 == received_fcs, p.1, p.2))

/-- State-passing form of `calculate_crc`: the method body contains no
assignment to `self`, so the post-state is the pre-state. -/
def CRC32Calculator.calculate_crc_st (self : CRC32Calculator) (data : List Nat)
    (use_table : Bool) : Option Nat × CRC32Calculator :=
  (self.calculate_crc data use_table, self)

/-- State-passing form of `calculate_fcs`. -/
def CRC32Calculator.calculate_fcs_st (self : CRC32Calculator) (data : List Nat) :
    Option (Nat × Nat) × CRC32Calculator :=
  (self.calculate_fcs data, self)

/-- State-passing form of `validate_frame`. -/
def CRC32Calculator.validate_frame_st (self : CRC32Calculator) (data : List Nat)
    (received_fcs : Nat) : Option (Bool × Nat × Nat) × CRC32Calculator :=
  (self.validate_frame data received_fcs, self)

/-! ### Arithmetic facts about the 32-bit mask and the division step -/

theorem mask_eq_mod (x : Nat) : x &&& 0xFFFFFFFF = x % 2^32 := by
  have h : (0xFFFFFFFF : Nat) = 2^32 - 1 := by norm_num
  rw [h, Nat.and_pow_two_sub_one_eq_mod]

theorem mask_lt (x : Nat) : x &&& 0xFFFFFFFF < 2^32 := by
  rw [mask_eq_mod]
  exact Nat.mod_lt _ (by norm_num)

theorem mask_eq_of_lt {x : Nat} (h : x < 2^32) : x &&& 0xFFFFFFFF = x := by
  rw [mask_eq_mod]
  exact Nat.mod_eq_of_lt h

theorem and_top_ne_iff (x : Nat) : (x &&& 0x80000000 ≠ 0) ↔ x.testBit 31 = true := by
  have h : (0x80000000 : Nat) = 2^31 := by norm_num
  constructor
  · intro hne
    by_contra hb
    refine hne (Nat.eq_of_testBit_eq fun i => ?_)
    rw [Nat.zero_testBit, Nat.testBit_and, h, Nat.testBit_two_pow]
    by_cases hi : (31 : Nat) = i
    · subst hi
      rw [Bool.not_eq_true] at hb
      simp [hb]
    · simp [hi]
  · intro hb heq
    have h31 : (x &&& 0x80000000).testBit 31 = false := by
      rw [heq]; exact Nat.zero_testBit _
    rw [Nat.testBit_and, h, Nat.testBit_two_pow] at h31
    simp [hb] at h31

theorem crcStep_eq (x : Nat) :
    crcStep x = ((x <<< 1) ^^^ (if x.testBit 31 = true then POLYNOMIAL else 0)) &&& 0xFFFFFFFF := by
  unfold crcStep
  by_cases hb : x.testBit 31 = true
  · rw [if_pos ((and_top_ne_iff x).mpr hb), if_pos hb]
  · rw [if_neg (fun hc => hb ((and_top_ne_iff x).mp hc)), if_neg hb, Nat.xor_zero]

theorem crcStep_lt (x : Nat) : crcStep x < 2^32 := by
  unfold crcStep
  exact mask_lt _

theorem xor_shiftLeft (a b n : Nat) : (a ^^^ b) <<< n = (a <<< n) ^^^ (b <<< n) := by
  apply Nat.eq_of_testBit_eq
  intro i
  simp only [Nat.testBit_shiftLeft, Nat.testBit_xor]
  cases hd : decide (i ≥ n) <;> simp

theorem xor_left_comm (a b c : Nat) : a ^^^ (b ^^^ c) = b ^^^ (a ^^^ c) := by
  rw [← Nat.xor_assoc, Nat.xor_comm a b, Nat.xor_assoc]

theorem xor_xor_cancel (a b : Nat) : a ^^^ (a ^^^ b) = b := by
  rw [← Nat.xor_assoc, Nat.xor_self, Nat.zero_xor]

/-- The polynomial-division step is linear over XOR: the conditional XOR of
the polynomial depends only on bit 31, and XOR on bit 31 matches the XOR of
the conditionals. -/
theorem crcStep_xor (a b : Nat) : crcStep (a ^^^ b) = crcStep a ^^^ crcStep b := by
  rw [crcStep_eq, crcStep_eq, crcStep_eq, ← Nat.and_xor_distrib_right]
  congr 1
  rw [xor_shiftLeft]
  have ht : (a ^^^ b).testBit 31 = (a.testBit 31 ^^ b.testBit 31) := Nat.testBit_xor a b 31
  cases ha : a.testBit 31 <;> cases hb : b.testBit 31 <;>
    simp [ht, ha, hb, Nat.xor_assoc, Nat.xor_comm, xor_left_comm, xor_xor_cancel]

theorem crcRounds_succ (n x : Nat) : crcRounds (n + 1) x = crcRounds n (crcStep x) := rfl

theorem crcRounds_xor (n : Nat) : ∀ a b : Nat,
    crcRounds n (a ^^^ b) = crcRounds n a ^^^ crcRounds n b := by
  induction n with
  | zero => intro a b; rfl
  | succ n ih =>
    intro a b
    rw [crcRounds_succ, crcStep_xor, ih, crcRounds_succ, crcRounds_succ]

theorem crcRounds_lt (n : Nat) : ∀ x : Nat, crcRounds (n + 1) x < 2^32 := by
  induction n with
  | zero => exact crcStep_lt
  | succ n ih =>
    intro x
    rw [crcRounds_succ]
    exact ih (crcStep x)

theorem crcStep_of_lt {x : Nat} (h : x < 2^31) : crcStep x = x <<< 1 := by
  have hb : x.testBit 31 = false := Nat.testBit_lt_two_pow h
  rw [crcStep_eq, hb]
  have hs : x <<< 1 = x * 2 := by rw [Nat.shiftLeft_eq, pow_one]
  have hlt : x <<< 1 < 2^32 := by
    rw [hs]
    calc x * 2 < 2^31 * 2 := by omega
      _ = 2^32 := by norm_num
  simp [mask_eq_of_lt hlt]

theorem crcRounds_shiftLeft (n : Nat) : ∀ x : Nat, x * 2^n < 2^32 → crcRounds n x = x <<< n := by
  induction n with
  | zero => intro x _; simp [crcRounds]
  | succ n ih =>
    intro x h
    have h2 : (2:Nat)^1 ≤ 2^(n+1) := Nat.pow_le_pow_right (by norm_num) (by omega)
    have hx2 : x * 2 < 2^32 := by
      calc x * 2 = x * 2^1 := by norm_num
        _ ≤ x * 2^(n+1) := Nat.mul_le_mul_left x h2
        _ < 2^32 := h
    have hxlt : x < 2^31 := by
      have h32 : (2:Nat)^32 = 2^31 * 2 := by norm_num
      rw [h32] at hx2
      omega
    rw [crcRounds_succ, crcStep_of_lt hxlt]
    have hs : x <<< 1 = x * 2 := by rw [Nat.shiftLeft_eq, pow_one]
    rw [hs]
    have harg : (x * 2) * 2^n = x * 2^(n+1) := by ring
    rw [ih (x * 2) (by rw [harg]; exact h)]
    rw [Nat.shiftLeft_eq, Nat.shiftLeft_eq, harg]

/-- Every natural splits into its bits above 24 and its low 24 bits,
joined by XOR (the parts have disjoint bits). -/
theorem shift_split (a : Nat) : a = ((a >>> 24) <<< 24) ^^^ (a % 2^24) := by
  apply Nat.eq_of_testBit_eq
  intro i
  simp only [Nat.testBit_xor, Nat.testBit_shiftLeft, Nat.testBit_shiftRight,
    Nat.testBit_mod_two_pow]
  by_cases hi : i < 24
  · have hge : ¬ (i ≥ 24) := by omega
    simp [hi, hge]
  · have hge : i ≥ 24 := by omega
    have he : 24 + (i - 24) = i := by omega
    simp [hi, hge, he]

theorem shiftRight24_lt {a : Nat} (h : a < 2^32) : a >>> 24 < 2^8 := by
  rw [Nat.shiftRight_eq_div_pow]
  apply Nat.div_lt_of_lt_mul
  calc a < 2^32 := h
    _ = 2^24 * 2^8 := by norm_num

theorem table_lookup {i : Nat} (h : i < 256) :
    generate_crc_table[i]? = some (crcRounds 8 (i <<< 24)) := by
  unfold generate_crc_table
  rw [List.getElem?_map, List.getElem?_range h]
  rfl

/-- One iteration of the table-driven loop agrees with one iteration of the
direct loop: the table lookup at index `(crc >> 24) ^ byte` replaces the
8 polynomial-division rounds on `crc ^ (byte << 24)`. -/
theorem table_step_eq_direct_step (crc byte : Nat) :
    ((crc <<< 8) ^^^ crcRounds 8 (((crc >>> 24) ^^^ byte) <<< 24)) &&& 0xFFFFFFFF
      = crcRounds 8 (crc ^^^ (byte <<< 24)) := by
  have hsplit := shift_split crc
  set hi := crc >>> 24 with hhi
  set lo := crc % 2^24 with hlo
  have hlo24 : lo < 2^24 := by rw [hlo]; exact Nat.mod_lt _ (by norm_num)
  have hmul : lo * 2^8 < 2^32 := by
    calc lo * 2^8 < 2^24 * 2^8 := mul_lt_mul_of_pos_right hlo24 (by norm_num)
      _ = 2^32 := by norm_num
  have hloShift : crcRounds 8 lo = lo <<< 8 := crcRounds_shiftLeft 8 lo hmul
  have hloLt : lo <<< 8 < 2^32 := by rw [Nat.shiftLeft_eq]; exact hmul
  have hA : crcRounds 8 (hi <<< 24) < 2^32 := crcRounds_lt 7 _
  have hB : crcRounds 8 (byte <<< 24) < 2^32 := crcRounds_lt 7 _
  have e1 : ((hi ^^^ byte) <<< 24) = (hi <<< 24) ^^^ (byte <<< 24) := xor_shiftLeft hi byte 24
  have eL : crc <<< 8 = (hi <<< 32) ^^^ (lo <<< 8) := by
    conv_lhs => rw [hsplit]
    rw [xor_shiftLeft, ← Nat.shiftLeft_add]
  have eHi32 : (hi <<< 32) &&& 0xFFFFFFFF = 0 := by
    rw [mask_eq_mod, Nat.shiftLeft_eq, Nat.mul_mod_left]
  rw [e1, crcRounds_xor, eL]
  rw [Nat.xor_assoc, Nat.and_xor_distrib_right, eHi32, Nat.zero_xor]
  rw [mask_eq_of_lt (Nat.xor_lt_two_pow hloLt (Nat.xor_lt_two_pow hA hB))]
  rw [hsplit, Nat.xor_assoc, crcRounds_xor, crcRounds_xor, hloShift]
  exact xor_left_comm (lo <<< 8) _ _

/-- Running the whole table-driven loop over well-formed byte data from an
in-range register succeeds and agrees with the direct loop. -/
theorem tableLoop_eq_directLoop : ∀ (d : List Nat), (∀ b ∈ d, b < 256) →
    ∀ crc : Nat, crc < 2^32 →
    crcTableLoop generate_crc_table crc d = some (crcDirectLoop crc d) := by
  intro d
  induction d with
  | nil => intro _ crc _; rfl
  | cons b rest ih =>
    intro hall crc hc
    have hb : b < 256 := hall b (List.mem_cons_self b rest)
    have hhi8 : crc >>> 24 < 2^8 := shiftRight24_lt hc
    have hidx : (crc >>> 24) ^^^ b < 256 := by
      have hb8 : b < 2^8 := by simpa using hb
      simpa using Nat.xor_lt_two_pow hhi8 hb8
    have hloop : crcTableLoop generate_crc_table crc (b :: rest)
        = crcTableLoop generate_crc_table (crcRounds 8 (crc ^^^ (b <<< 24))) rest := by
      simp only [crcTableLoop, table_lookup hidx]
      rw [table_step_eq_direct_step crc b]
    rw [hloop]
    simp only [crcDirectLoop]
    exact ih (fun x hx => hall x (List.mem_cons_of_mem b hx)) _ (crcRounds_lt 7 _)

theorem calculate_crc_table_eq_direct (d : List Nat) (h : ∀ b ∈ d, b < 256) :
    calculate_crc_table generate_crc_table d = some (calculate_crc_direct d) := by
  unfold calculate_crc_table calculate_crc_direct
  rw [tableLoop_eq_directLoop d h INITIAL_VALUE (by norm_num [INITIAL_VALUE])]
  rfl

theorem crcDirectLoop_lt : ∀ (d : List Nat) (crc : Nat), crc < 2^32 →
    crcDirectLoop crc d < 2^32 := by
  intro d
  induction d with
  | nil => intro crc h; exact h
  | cons b rest ih => intro crc _; exact ih _ (crcRounds_lt 7 _)

theorem crcTableLoop_cons (table : List Nat) (crc b : Nat) (rest : List Nat) :
    crcTableLoop table crc (b :: rest)
      = match table[(crc >>> 24) ^^^ b]? with
        | some entry => crcTableLoop table (((crc <<< 8) ^^^ entry) &&& 0xFFFFFFFF) rest
        | none => none := rfl

theorem crcTableLoop_lt : ∀ (d table : List Nat) (crc out : Nat),
    crc < 2^32 → crcTableLoop table crc d = some out → out < 2^32 := by
  intro d
  induction d with
  | nil =>
    intro table crc out h he
    obtain rfl : crc = out := Option.some.inj he
    exact h
  | cons b rest ih =>
    intro table crc out h he
    rw [crcTableLoop_cons] at he
    cases hl : table[(crc >>> 24) ^^^ b]? with
    | none => rw [hl] at he; exact Option.noConfusion he
    | some e => rw [hl] at he; exact ih table _ out (mask_lt _) he

theorem calculate_crc_table_lt {table d : List Nat} {r : Nat}
    (h : calculate_crc_table table d = some r) : r < 2^32 := by
  unfold calculate_crc_table at h
  cases hl : crcTableLoop table INITIAL_VALUE d with
  | none => rw [hl] at h; exact Option.noConfusion h
  | some out =>
    rw [hl] at h
    obtain rfl : out ^^^ FINAL_XOR = r := Option.some.inj h
    exact Nat.xor_lt_two_pow
      (crcTableLoop_lt d table INITIAL_VALUE out (by norm_num [INITIAL_VALUE]) hl)
      (by norm_num [FINAL_XOR])

/-- If `calculate_fcs` returns `(crc, fcs)`, then `crc` is the table-path CRC
and `fcs` is its complement. -/
theorem calculate_fcs_some {s : CRC32Calculator} {d : List Nat} {crc fcs : Nat}
    (h : s.calculate_fcs d = some (crc, fcs)) :
    s.calculate_crc d true = some crc ∧ fcs = crc ^^^ 0xFFFFFFFF := by
  unfold CRC32Calculator.calculate_fcs at h
  cases hcc : s.calculate_crc d true with
  | none => rw [hcc] at h; exact Option.noConfusion h
  | some c =>
    rw [hcc] at h
    have h2 : (c, c ^^^ 0xFFFFFFFF) = (crc, fcs) := Option.some.inj h
    injection h2 with ha hb
    subst ha
    exact ⟨rfl, hb.symm⟩

theorem calculate_fcs_some_lt {d : List Nat} {crc fcs : Nat}
    (h : CRC32Calculator.init.calculate_fcs d = some (crc, fcs)) :
    crc < 2^32 ∧ fcs < 2^32 := by
  obtain ⟨h1, h2⟩ := calculate_fcs_some h
  have hc : crc < 2^32 := calculate_crc_table_lt (d := d) (by
    rw [← h1]; rfl)
  exact ⟨hc, h2 ▸ Nat.xor_lt_two_pow hc (by norm_num)⟩

/-! ### Claims -/

/-- C1: for every byte sequence `d` (each element a byte value, 0–255), the
table-driven strategy and the direct bit-wise strategy of `calculate_crc`
return the same CRC value. -/
theorem c1_table_direct_equiv (d : List Nat) (h : ∀ b ∈ d, b < 256) :
    CRC32Calculator.init.calculate_crc d true = CRC32Calculator.init.calculate_crc d false := by
  show calculate_crc_table generate_crc_table d = some (calculate_crc_direct d)
  exact calculate_crc_table_eq_direct d h

theorem c1_table_direct_equiv_witness :
    CRC32Calculator.init.calculate_crc (List.replicate 300 65) true
      = CRC32Calculator.init.calculate_crc (List.replicate 300 65) false :=
  c1_table_direct_equiv (List.replicate 300 65) (by decide)

/-- C2: the generated lookup table has exactly 256 entries, and entry `i`
equals the result of starting a 32-bit register at `i << 24` and running
8 polynomial-division steps (`crcStep`, polynomial `0x04C11DB7`, masked to
32 bits after each step). -/
theorem c2_table_entries (i : Nat) (h : i < 256) :
    generate_crc_table.length = 256 ∧
      generate_crc_table[i]? = some (crcRounds 8 (i <<< 24)) := by
  refine ⟨?_, table_lookup h⟩
  simp [generate_crc_table]

theorem c2_table_entries_witness :
    generate_crc_table.length = 256 ∧
      generate_crc_table[170]? = some (crcRounds 8 (170 <<< 24)) :=
  c2_table_entries 170 (by decide)

/-- C3: if `calculate_fcs d` returns `(crc, fcs)`, then validating `d`
against `fcs` reports `is_valid = true`, while validating against any
single-bit flip of `fcs` (bits 0–31) reports `is_valid = false` with the
recomputed `calculated_fcs` still equal to `fcs`. -/
theorem c3_validation_correct (d : List Nat) (crc fcs : Nat)
    (h : CRC32Calculator.init.calculate_fcs d = some (crc, fcs)) :
    CRC32Calculator.init.validate_frame d fcs = some (true, crc, fcs) ∧
      ∀ k : Nat, k < 32 →
        CRC32Calculator.init.validate_frame d (fcs ^^^ (1 <<< k)) = some (false, crc, fcs) := by
  unfold CRC32Calculator.validate_frame
  rw [h]
  constructor
  · simp
  · intro k _
    have hne : fcs ≠ fcs ^^^ (1 <<< k) := by
      intro he
      have h2 := congrArg (fun z => fcs ^^^ z) he
      simp only [Nat.xor_self, xor_xor_cancel] at h2
      rw [Nat.one_shiftLeft] at h2
      exact absurd h2.symm (Nat.pos_iff_ne_zero.mp (Nat.pos_pow_of_pos k (by norm_num)))
    simp [hne]

theorem c3_validation_correct_witness :
    CRC32Calculator.init.validate_frame [72, 69, 76, 76, 79] (2362953146 ^^^ (1 <<< 0))
      = some (false, 1932014149, 2362953146) :=
  (c3_validation_correct [72, 69, 76, 76, 79] 1932014149 2362953146 (by decide)).2 0 (by decide)

/-- C4: `calculate_fcs d` returns `(crc, fcs)` where `crc` is the value of
`calculate_crc d` (default table path) and `fcs = crc XOR 0xFFFFFFFF`;
consequently `fcs XOR crc = 0xFFFFFFFF`. -/
theorem c4_fcs_complement (d : List Nat) (crc fcs : Nat)
    (h : CRC32Calculator.init.calculate_fcs d = some (crc, fcs)) :
    CRC32Calculator.init.calculate_crc d true = some crc ∧
      fcs = crc ^^^ 0xFFFFFFFF ∧ fcs ^^^ crc = 0xFFFFFFFF := by
  obtain ⟨h1, h2⟩ := calculate_fcs_some h
  refine ⟨h1, h2, ?_⟩
  rw [h2, Nat.xor_comm crc 0xFFFFFFFF, Nat.xor_assoc, Nat.xor_self, Nat.xor_zero]

theorem c4_fcs_complement_witness :
    CRC32Calculator.init.calculate_crc [] true = some 0 ∧
      (0xFFFFFFFF : Nat) = 0 ^^^ 0xFFFFFFFF ∧ (0xFFFFFFFF : Nat) ^^^ 0 = 0xFFFFFFFF :=
  c4_fcs_complement [] 0 0xFFFFFFFF (by decide)

/-- C5: `validate_frame d received_fcs` returns exactly the `crc` and `fcs`
that `calculate_fcs d` returns, and `is_valid` is true if and only if
`fcs = received_fcs`. -/
theorem c5_validate_structure (d : List Nat) (received_fcs crc fcs : Nat)
    (h : CRC32Calculator.init.calculate_fcs d = some (crc, fcs)) :
    CRC32Calculator.init.validate_frame d received_fcs
        = some (fcs == received_fcs, crc, fcs) ∧
      ((fcs == received_fcs) = true ↔ fcs = received_fcs) := by
  constructor
  · unfold CRC32Calculator.validate_frame
    rw [h]
    rfl
  · exact beq_iff_eq

theorem c5_validate_structure_witness :
    CRC32Calculator.init.validate_frame [] 7 = some (((0xFFFFFFFF : Nat) == 7), 0, 0xFFFFFFFF) ∧
      (((0xFFFFFFFF : Nat) == 7) = true ↔ (0xFFFFFFFF : Nat) = 7) :=
  c5_validate_structure [] 7 0 0xFFFFFFFF (by decide)

/-- C6: on the empty byte sequence both strategies return CRC `0x00000000`:
the register stays `0xFFFFFFFF` through the empty loop and the final XOR
with `0xFFFFFFFF` yields zero. -/
theorem c6_empty_crc :
    CRC32Calculator.init.calculate_crc [] true = some 0 ∧
      CRC32Calculator.init.calculate_crc [] false = some 0 := by
  constructor <;> rfl

/-- C7: every table index `(register >> 24) XOR byte` computed from an
in-range register and a byte value lies in `0..255`, and consequently the
table-driven computation over byte data never hits the out-of-range lookup
branch (it always returns a value, never `none`). -/
theorem c7_index_in_bounds :
    (∀ crc byte : Nat, crc < 2^32 → byte < 256 → (crc >>> 24) ^^^ byte < 256) ∧
      ∀ d : List Nat, (∀ b ∈ d, b < 256) →
        (calculate_crc_table generate_crc_table d).isSome = true := by
  constructor
  · intro crc byte hc hb
    have h1 : crc >>> 24 < 2^8 := shiftRight24_lt hc
    have h2 : byte < 2^8 := by simpa using hb
    simpa using Nat.xor_lt_two_pow h1 h2
  · intro d h
    rw [calculate_crc_table_eq_direct d h]
    rfl

theorem c7_index_in_bounds_witness :
    ((0xFFFFFFFF : Nat) >>> 24) ^^^ 65 < 256 ∧
      (calculate_crc_table generate_crc_table [72, 69, 76, 76, 79]).isSome = true :=
  ⟨c7_index_in_bounds.1 0xFFFFFFFF 65 (by decide) (by decide),
   c7_index_in_bounds.2 [72, 69, 76, 76, 79] (by decide)⟩

/-- C8: `calculate_crc`, `calculate_fcs` and `validate_frame` are
deterministic: a second call on the same calculator instance (the post-state
of the first call) with identical inputs returns an identical result, and
the state after both calls is the original state (no hidden state drift). -/
theorem c8_determinism (s : CRC32Calculator) (d : List Nat) (u : Bool) (rf : Nat) :
    ((s.calculate_crc_st d u).1 = ((s.calculate_crc_st d u).2.calculate_crc_st d u).1
        ∧ ((s.calculate_crc_st d u).2.calculate_crc_st d u).2 = s) ∧
      ((s.calculate_fcs_st d).1 = ((s.calculate_fcs_st d).2.calculate_fcs_st d).1
        ∧ ((s.calculate_fcs_st d).2.calculate_fcs_st d).2 = s) ∧
      ((s.validate_frame_st d rf).1 = ((s.validate_frame_st d rf).2.validate_frame_st d rf).1
        ∧ ((s.validate_frame_st d rf).2.validate_frame_st d rf).2 = s) :=
  ⟨⟨rfl, rfl⟩, ⟨rfl, rfl⟩, ⟨rfl, rfl⟩⟩

/-- C9: the lookup table is built once at construction
(`init.crc_table = generate_crc_table`) and no operation mutates the
calculator: each method's post-state is its pre-state, so `crc_table` is
unchanged by `calculate_crc`, `calculate_fcs` and `validate_frame`. -/
theorem c9_table_immutable (s : CRC32Calculator) (d : List Nat) (u : Bool) (rf : Nat) :
    CRC32Calculator.init.crc_table = generate_crc_table ∧
      (s.calculate_crc_st d u).2 = s ∧
      (s.calculate_fcs_st d).2 = s ∧
      (s.validate_frame_st d rf).2 = s ∧
      (s.calculate_crc_st d u).2.crc_table = s.crc_table ∧
      (s.calculate_fcs_st d).2.crc_table = s.crc_table ∧
      (s.validate_frame_st d rf).2.crc_table = s.crc_table :=
  ⟨rfl, rfl, rfl, rfl, rfl, rfl, rfl⟩

/-- C10: every CRC and FCS value the core returns is a 32-bit unsigned
integer (`< 2^32`) — for the direct strategy, the table strategy, and the
pair returned by `calculate_fcs` — and since `validate_frame` compares
`received_fcs` by exact equality without masking, any `received_fcs ≥ 2^32`
yields `is_valid = false`. -/
theorem c10_range (d : List Nat) (r crc fcs rfcs : Nat) (v : Bool) :
    calculate_crc_direct d < 2^32 ∧
      (calculate_crc_table generate_crc_table d = some r → r < 2^32) ∧
      (CRC32Calculator.init.calculate_fcs d = some (crc, fcs) →
        crc < 2^32 ∧ fcs < 2^32) ∧
      (2^32 ≤ rfcs →
        CRC32Calculator.init.validate_frame d rfcs = some (v, crc, fcs) → v = false) := by
  refine ⟨?_, fun h => calculate_crc_table_lt h, fun h => calculate_fcs_some_lt h, ?_⟩
  · unfold calculate_crc_direct
    exact Nat.xor_lt_two_pow
      (crcDirectLoop_lt d INITIAL_VALUE (by norm_num [INITIAL_VALUE]))
      (by norm_num [FINAL_XOR])
  · intro hge hv
    unfold CRC32Calculator.validate_frame at hv
    cases hf : CRC32Calculator.init.calculate_fcs d with
    | none => rw [hf] at hv; exact Option.noConfusion hv
    | some p =>
      rw [hf] at hv
      have h3 : ((p.2 == rfcs), p.1, p.2) = (v, crc, fcs) := Option.some.inj hv
      injection h3 with hv1 h4
      injection h4 with hv2 hv3
      subst hv1; subst hv2; subst hv3
      have hlt : p.2 < 2^32 := (calculate_fcs_some_lt (by rw [hf])).2
      exact beq_eq_false_iff_ne.mpr (fun he => absurd (he ▸ hge) (Nat.not_le.mpr hlt))

theorem c10_range_witness :
    calculate_crc_direct [] < 2^32 ∧
      ((0 : Nat) < 2^32 ∧ (0xFFFFFFFF : Nat) < 2^32) ∧ false = false := by
  have h := c10_range [] 0 0 0xFFFFFFFF (2^32) false
  exact ⟨h.1, h.2.2.1 (by decide), h.2.2.2 (by decide) (by decide)⟩

end CRC32
